import Mathlib

/-!
Verification of the resource-usage reconciliation engine of
`project_static_analysis.py`: the resource inventory builder
(`apply_resources` with its helpers `find_matching_folders`,
`apply_imageset` and `apply_addtional_resouces`), the usage matcher
(`check_resource_usage` with `is_content_matching_resource`), the
reconciliation (`fetch_unused_resources`) and the cleanup executor
(`clear_unused_resources` with `delete_imageset_or_file`) are shallowly
embedded below and the specified properties are proved or refuted against
that embedding.

Modelling conventions:
* a filesystem path is represented by its list of `/`-separated components
  (`Path := List String`); on normalized absolute paths `os.path.dirname`
  drops the last component, `os.path.basename` takes it, and
  `os.path.commonpath` takes the longest common component prefix, which is
  exactly how they are embedded here;
* Python dictionaries are association lists built exclusively through
  `insertReplace` (assignment `d[k] = v`), which replaces the binding of an
  existing key in place and appends a new key at the end, so keys stay
  unique by construction; Python sets become `dedup`-ed lists;
* Python strings are Lean `String`s; `needle in hay` is substring search on
  the underlying character lists; the filesystem is a list of
  `(path, byte size)` pairs, directories being represented through the
  files they contain;
* fallible operations (file reads that may raise `PermissionError` or
  `UnicodeDecodeError`, deletions of missing paths) return
  `Except String _`; an uncaught Python exception is the `Except.error`
  case, which aborts the enclosing loop exactly as an exception would.
-/

namespace StaticAnalysis

abbrev Path := List String

/-! ## Generic association-list operations (Python `dict`) -/

/-- Python `d.get(k)` / `k in d` on an association list. -/
def lookupA {κ α : Type} [BEq κ] : List (κ × α) → κ → Option α
  | [], _ => none
  | pr :: rest, k => if pr.1 == k then some pr.2 else lookupA rest k

/-- Python `d[k] = v`: replace the binding of an existing key in place,
append a new key at the end. -/
def insertReplace {κ α : Type} [BEq κ] : List (κ × α) → κ → α → List (κ × α)
  | [], k, v => [(k, v)]
  | pr :: rest, k, v =>
      if pr.1 == k then (k, v) :: rest else pr :: insertReplace rest k v

/-- number of bindings of a key (1 for every key of a genuine dictionary). -/
def countKey {κ α : Type} [BEq κ] (m : List (κ × α)) (k : κ) : Nat :=
  (m.filter (fun pr => pr.1 == k)).length

/-- every key is bound at most once. -/
def AtMostOne {κ α : Type} [BEq κ] (m : List (κ × α)) : Prop :=
  ∀ k, countKey m k ≤ 1

/-! ## String helpers (Python `str` operations) -/

/-- Python `needle in hay` substring test on strings. -/
def pyIn (needle hay : String) : Bool :=
  decide (needle.data <:+: hay.data)

/-- Python `s.endswith(suffix)`. -/
def pyEndsWith (s suffix : String) : Bool :=
  suffix.data.isSuffixOf s.data

/-- Python `s[:-n]` (for `n ≤ len(s)`). -/
def pyDropRight (s : String) (n : Nat) : String :=
  String.mk (s.data.take (s.data.length - n))

/-! ## Usage matcher (`check_resource_usage`) -/

/-- the helper `contains_digit` of `check_resource_usage`:
`re.search(r'\d', s)` finds a digit. -/
def contains_digit (s : String) : Bool :=
  s.data.any Char.isDigit

/-- characters consumed by the splitting regex `[^_?-?\d]` of
`is_content_matching_resource`: inside the character class, `?-?` is the
one-character range from `?` to `?`, so the class excludes `_`, `?` and the
digits; the hyphen is consumed as the range operator and is NOT excluded. -/
def isSepChar (c : Char) : Bool :=
  c == '_' || c == '?' || c.isDigit

/-- `re.findall(r'([^SEP]+)', s)`: the maximal non-empty runs of
non-separator characters, in order. `cur` is the (reversed) run currently
being accumulated. -/
def findallRunsAux (p : Char → Bool) : List Char → List Char → List (List Char)
  | cur, [] => if cur.isEmpty then [] else [cur.reverse]
  | cur, c :: rest =>
      if p c then
        (if cur.isEmpty then findallRunsAux p [] rest
         else cur.reverse :: findallRunsAux p [] rest)
      else
        findallRunsAux p (c :: cur) rest

/-- `re.compile(r'([^_?-?\d]+)').findall(resource)`. -/
def findallFragments (resource : String) : List (List Char) :=
  findallRunsAux isSepChar [] resource.data

/-- `is_content_matching_resource(resource, file_content)`: if the split
produced fragments, all of them must occur in the content; otherwise fall
back to the exact substring test. -/
def is_content_matching_resource (resource file_content : String) : Bool :=
  let arr := findallFragments resource
  if arr.isEmpty then pyIn resource file_content
  else arr.all (fun s => pyIn (String.mk s) file_content)

/-- the per-file verdict of the loop body of `check_resource_usage`:
exact substring match, or the tokenized match for digit-bearing names. -/
def code_is_used (resource content : String) : Bool :=
  pyIn resource content ||
    (contains_digit resource && is_content_matching_resource resource content)

/-- one loop iteration of `check_resource_usage`: an empty content
(`if content:`) contributes no match. The local `is_full_digit` of the
source is computed but never used, so it has no counterpart here. -/
def resourceMatchesContent (resource content : String) : Bool :=
  (content != "") && code_is_used resource content

/-- `check_resource_usage` over a corpus whose reads all succeed:
scan files until the first match. -/
def check_resource_usage (resource : String) (contents : List String) : Bool :=
  contents.any (fun content => resourceMatchesContent resource content)

/-- `check_resource_usage` over a corpus whose reads may raise:
`open(...)/read()` has no try/except in the source, so a read error
escapes the loop at once. -/
def check_resource_usage_fallible (resource : String) :
    List (Except String String) → Except String Bool
  | [] => Except.ok false
  | readResult :: rest =>
      match readResult with
      | Except.error e => Except.error e
      | Except.ok content =>
          if resourceMatchesContent resource content then Except.ok true
          else check_resource_usage_fallible resource rest

/-- Modelled from the spec: the separators of the secondary matching rule
are "runs of digits and the separator characters `_` and `-`".  Stated only
for comparison with `isSepChar`. -/
def specSepChar (c : Char) : Bool :=
  c == '_' || c == '-' || c.isDigit

/-- Modelled from the spec: the fragments of the secondary matching rule. -/
def spec_fragments (resource : String) : List (List Char) :=
  findallRunsAux specSepChar [] resource.data

/-- Modelled from the spec: the matcher verdict described by the spec —
exact substring match, or for digit-bearing names, all spec fragments
appear (falling back to the exact match when no fragment is produced). -/
def spec_is_used (resource content : String) : Bool :=
  pyIn resource content ||
    (contains_digit resource &&
      (let frs := spec_fragments resource
       if frs.isEmpty then pyIn resource content
       else frs.all (fun s => pyIn (String.mk s) content)))

/-! ## Inventory and reconciliation (`apply_resources`, `fetch_unused_resources`) -/

structure Inventory where
  imagesets : List (String × Path)
  others : List (String × List (String × Path))

/-- the name list assembled at the top of `fetch_unused_resources`:
the imageset keys plus, per format, the keys of `others[format]`. -/
def allResources (res : Inventory) : List String :=
  (res.imagesets.map Prod.fst).dedup ++
    (res.others.map (fun fd => (fd.2.map Prod.fst).dedup)).flatten

/-- the `used_resources` list of `fetch_unused_resources`: the names whose
usage check succeeded.  The guard `if r and r not in used_resources` keeps
a truthy (non-empty) name at most once. -/
def used_resources (contents : List String) (res : Inventory) : List String :=
  ((allResources res).filter
    (fun r => (r != "") && check_resource_usage r contents)).dedup

/-- `fetch_unused_resources`:
`list(set(all_resources).difference(set(used_resources)))`. -/
def fetch_unused_resources (contents : List String) (res : Inventory) :
    List String :=
  ((allResources res).dedup).filter
    (fun r => decide (r ∉ used_resources contents res))

/-- the used-name collection of `fetch_unused_resources` when file reads may
fail: `future.result()` re-raises the first read error. -/
def collect_used_fallible (files : List (Except String String)) :
    List String → Except String (List String)
  | [] => Except.ok []
  | r :: rest => do
      let b ← check_resource_usage_fallible r files
      let tail ← collect_used_fallible files rest
      Except.ok (if b && r != "" then r :: tail else tail)

/-- `fetch_unused_resources` over a corpus whose reads may raise. -/
def fetch_unused_resources_fallible (files : List (Except String String))
    (res : Inventory) : Except String (List String) := do
  let used ← collect_used_fallible files (allResources res)
  Except.ok (((allResources res).dedup).filter (fun r => decide (r ∉ used)))

/-! ## Inventory builder (`apply_resources`) -/

/-- `extract_imageset_name` in `apply_imageset`: the basename of the
dirname of the file, with a trailing `.imageset` stripped
(`imageset_name[:-9]`). -/
def extract_imageset_name (path : Path) : String :=
  let imageset_name := (path.dropLast).getLastD ""
  if pyEndsWith imageset_name ".imageset" then pyDropRight imageset_name 9
  else imageset_name

/-- `apply_imageset`: `result[extract_imageset_name(f)] = f` over the
discovered files. -/
def apply_imageset (imageset_files : List Path) : List (String × Path) :=
  imageset_files.foldl
    (fun acc f => insertReplace acc (extract_imageset_name f) f) []

/-- the glob `os.path.join(input_path, "**/*.imageset/**/*.*")` with
`recursive=True`: some ancestor directory of the file ends in `.imageset`
(the inner `**/` may be empty, so the file may sit at any depth below it)
and the filename matches `*.*`.  Hidden files are out of scope of the
model. -/
def imagesetGlobMatches (p : Path) : Bool :=
  (p.dropLast.any (fun d => pyEndsWith d ".imageset")) &&
    (p.getLastD "").data.contains '.'

/-- Modelled from the spec: "the resource name is the enclosing
bundle-directory's name with the suffix stripped" — the NEAREST ancestor
directory whose name ends in `.imageset`, suffix removed.  Stated only for
comparison with `extract_imageset_name`. -/
def enclosing_bundle_name (p : Path) : Option String :=
  ((p.dropLast).reverse.find? (fun d => pyEndsWith d ".imageset")).map
    (fun d => pyDropRight d 9)

/-- `remove_duplicate_suffix` in `apply_addtional_resouces`: strip a
trailing `@2x` or `@3x`. -/
def remove_duplicate_suffix (name : String) : String :=
  if pyEndsWith name "@2x" then pyDropRight name 3
  else if pyEndsWith name "@3x" then pyDropRight name 3
  else name

/-- Python `full_name.rsplit(".", 1)` for a name containing a dot (the glob
pattern `*.*` guarantees one for every discovered file); a dotless name is
returned whole with an empty format. -/
def pyRsplitDot (fullName : String) : String × String :=
  if fullName.data.contains '.' then
    let revExt := fullName.data.reverse.takeWhile (fun c => !(c == '.'))
    (String.mk (fullName.data.take (fullName.data.length - revExt.length - 1)),
     String.mk revExt.reverse)
  else (fullName, "")

/-- `name, format = full_name.rsplit(".", 1); name = remove_duplicate_suffix(name)`. -/
def normalize_resource_name (fullName : String) : String × String :=
  let pr := pyRsplitDot fullName
  (remove_duplicate_suffix pr.1, pr.2)

/-- `result[format][name] = resource_file` on the nested `others` map
(`if format not in result: result[format] = {}` first). -/
def insertNested (acc : List (String × List (String × Path)))
    (fmt name : String) (v : Path) : List (String × List (String × Path)) :=
  match lookupA acc fmt with
  | some inner => insertReplace acc fmt (insertReplace inner name v)
  | none => insertReplace acc fmt [(name, v)]

/-- the body of the second loop of `apply_addtional_resouces`: normalize the
basename and insert into the nested map. -/
def othersStep (acc : List (String × List (String × Path))) (f : Path) :
    List (String × List (String × Path)) :=
  let pr := normalize_resource_name (f.getLastD "")
  insertNested acc pr.2 pr.1 f

/-- the invariant of the nested `others` map: the format keys are unique
and so are the name keys of every per-format map. -/
def NestedOK (acc : List (String × List (String × Path))) : Prop :=
  AtMostOne acc ∧ ∀ pr ∈ acc, AtMostOne pr.2

/-- all file paths stored in a nested `others` map. -/
def othersPaths : List (String × List (String × Path)) → List Path
  | [] => []
  | pr :: rest => pr.2.map Prod.snd ++ othersPaths rest

/-- the longest common component prefix of two paths, which is how
`os.path.commonpath` compares two normalized absolute paths. -/
def commonPrefixSegs : Path → Path → Path
  | a :: as, b :: bs => if a = b then a :: commonPrefixSegs as bs else []
  | _, _ => []

/-- the exclusion test of `apply_addtional_resouces`:
`os.path.commonpath([file_path, exclude_path]) == exclude_path`. -/
def is_under (file_path exclude_path : Path) : Bool :=
  decide (commonPrefixSegs file_path exclude_path = exclude_path)

/-- `apply_addtional_resouces`: drop every file lying under one of the
resolved exclude folders (for an absent/empty exclusion list
`if exclude_resource_paths:` skips the test, and `List.any [] _ = false`
models that), collect the survivors into a set, then build the nested
`others` map. -/
def apply_addtional_resouces (files : List Path) (excludePaths : List Path) :
    List (String × List (String × Path)) :=
  ((files.filter
      (fun f => !(excludePaths.any (fun e => is_under f e)))).dedup).foldl
    othersStep []

/-- one visit of `os.walk`: the directory visited and the names of its
subdirectories. -/
abbrev WalkEntry := Path × List String

/-- `find_matching_folders(base_path, folders)`: `None` when the folder
list is falsy (absent or empty), otherwise every `os.path.join(root,
folder)` with `folder in dirs` during the walk, collected as a set. -/
def find_matching_folders (walk : List WalkEntry)
    (folders : Option (List String)) : Option (List Path) :=
  match folders with
  | none => none
  | some fs =>
      if fs.isEmpty then none
      else
        some ((fs.flatMap (fun folder =>
          walk.filterMap (fun rd =>
            if folder ∈ rd.2 then some (rd.1 ++ [folder]) else none))).dedup)

/-- `apply_resources`: when `find_matching_folders` yields `None` for the
additional resource folders, the loop `for path in
additional_resource_folder_paths:` raises `TypeError` before any part of
the inventory is assembled; otherwise the imageset map and the `others`
map are built.  `filesUnder` abstracts the per-folder glob
`glob.glob(os.path.join(directory_path, "**/*.*"), recursive=True)`. -/
def apply_resources (walk : List WalkEntry) (imageset_files : List Path)
    (additionalFolders excludeFolders : Option (List String))
    (filesUnder : Path → List Path) : Except String Inventory :=
  match find_matching_folders walk additionalFolders with
  | none => Except.error "TypeError: NoneType object is not iterable"
  | some folderPaths =>
      Except.ok
        { imagesets := apply_imageset imageset_files,
          others := apply_addtional_resouces (folderPaths.flatMap filesUnder)
            ((find_matching_folders walk excludeFolders).getD []) }

/-! ## Cleanup executor (`clear_unused_resources`) -/

/-- the filesystem: regular files with their byte sizes. -/
abbrev FS := List (Path × Nat)

/-- `delete_imageset_or_file`: record the file's size (`os.path.getsize`,
with `except FileNotFoundError` counting 0), then remove the whole parent
directory when its name ends in `.imageset` (`shutil.rmtree`), otherwise
remove the single file (`os.remove`).  Neither removal is guarded, so a
missing path raises `FileNotFoundError` out of the function. -/
def delete_imageset_or_file (fs : FS) (path : Path) :
    Except String (FS × Nat) :=
  let size := (lookupA fs path).getD 0
  let parent := path.dropLast
  if pyEndsWith (parent.getLastD "") ".imageset" then
    if fs.any (fun q => parent.isPrefixOf q.1) then
      Except.ok (fs.filter (fun q => !(parent.isPrefixOf q.1)), size)
    else Except.error "FileNotFoundError"
  else
    if fs.any (fun q => q.1 == path) then
      Except.ok (fs.filter (fun q => !(q.1 == path)), size)
    else Except.error "FileNotFoundError"

/-- Modelled from the spec: "the reported reclaimed size equals the sum of
all files that directory contained at the moment of deletion".  Stated only
for comparison with the size recorded by `delete_imageset_or_file`. -/
def bundle_total_size (fs : FS) (dir : Path) : Nat :=
  ((fs.filter (fun q => dir.isPrefixOf q.1)).map Prod.snd).sum

/-- the per-name path resolution of `clear_unused_resources`, imageset
part: `{key: imageset_obj[key] for key in unused_resources if key in
imageset_obj}`. -/
def imagesetStep (res : Inventory) (m : List (String × Path)) (k : String) :
    List (String × Path) :=
  match lookupA res.imagesets k with
  | some v => insertReplace m k v
  | none => m

/-- one format of the dict-comprehension update of `clear_unused_resources`:
`key: format_dict[key] ... if key in format_dict`. -/
def othersLookupStep (k : String) (m : List (String × Path))
    (fd : String × List (String × Path)) : List (String × Path) :=
  match lookupA fd.2 k with
  | some v => insertReplace m k v
  | none => m

/-- all formats of the dict-comprehension update for one unused name. -/
def unusedStep (res : Inventory) (m : List (String × Path)) (k : String) :
    List (String × Path) :=
  res.others.foldl (othersLookupStep k) m

/-- the `unused_dict` of `clear_unused_resources`: the imageset
comprehension, then `update` with the others comprehension — a later
binding for the same name overwrites the earlier one. -/
def unusedDict (unused : List String) (res : Inventory) :
    List (String × Path) :=
  unused.foldl (unusedStep res) (unused.foldl (imagesetStep res) [])

/-- the deletion loop of `clear_unused_resources`, threading the
filesystem and the reclaimed-byte total; an exception aborts the loop. -/
def runDeletes (fs : FS) (total : Nat) :
    List (String × Path) → Except String (FS × Nat)
  | [] => Except.ok (fs, total)
  | entry :: rest =>
      match delete_imageset_or_file fs entry.2 with
      | Except.error e => Except.error e
      | Except.ok (fs', sz) => runDeletes fs' (total + sz) rest

/-- `clear_unused_resources`: resolve, delete, and report
`(len(unused_dict), total_size_bytes)`. -/
def clear_unused_resources (unused : List String) (res : Inventory)
    (fs : FS) : Except String (FS × Nat × Nat) :=
  match runDeletes fs 0 (unusedDict unused res) with
  | Except.error e => Except.error e
  | Except.ok (fs', total) =>
      Except.ok (fs', (unusedDict unused res).length, total)

/-! ## Concrete fixtures -/

/-- a one-imageset inventory. -/
def invW : Inventory :=
  { imagesets := [("icon", ["a", "icon.imageset", "icon.png"])],
    others := [] }

/-- the inventory of the section-8 scenario of the spec: the name `logo`
resolves both as an imageset and under `others["json"]`. -/
def specInventory : Inventory :=
  { imagesets := [("logo", ["a", "logo.imageset", "logo@2x.png"])],
    others := [("json", [("logo", ["a", "logo.imageset", "Contents.json"])])] }

/-- a bundle directory holding two member files of sizes 100 and 200. -/
def fsBundle : FS :=
  [(["a", "logo.imageset", "x.png"], 100),
   (["a", "logo.imageset", "y.png"], 200)]

/-- a filesystem in which `ghost`'s resolved path is already gone. -/
def fsC6 : FS := [(["b", "ok.png"], 7)]

/-- an inventory resolving `ghost` to the missing path and `real` to the
existing one. -/
def resC6 : Inventory :=
  { imagesets := [("ghost", ["a", "gone.png"]), ("real", ["b", "ok.png"])],
    others := [] }

/-! ## Association-list lemmas -/

lemma atMostOne_nil {κ α : Type} [BEq κ] : AtMostOne ([] : List (κ × α)) := by
  intro k
  simp [countKey]

lemma countKey_insertReplace_self {κ α : Type} [BEq κ] [LawfulBEq κ]
    (m : List (κ × α)) (k : κ) (v : α) :
    countKey (insertReplace m k v) k = max (countKey m k) 1 := by
  induction m with
  | nil => simp [insertReplace, countKey]
  | cons pr rest ih =>
      by_cases h : pr.1 = k
      · simp [insertReplace, countKey, h, List.filter_cons]
      · have hb : (pr.1 == k) = false := beq_eq_false_iff_ne.2 h
        simp [insertReplace, countKey, hb, List.filter_cons] at ih ⊢
        omega

lemma countKey_insertReplace_ne {κ α : Type} [BEq κ] [LawfulBEq κ]
    (m : List (κ × α)) (k k' : κ) (v : α) (h : k' ≠ k) :
    countKey (insertReplace m k v) k' = countKey m k' := by
  have hkk : (k == k') = false := beq_eq_false_iff_ne.2 (Ne.symm h)
  induction m with
  | nil => simp [insertReplace, countKey, List.filter_cons, hkk]
  | cons pr rest ih =>
      by_cases hp : pr.1 = k
      · simp [insertReplace, countKey, hp, List.filter_cons, hkk]
      · have hb : (pr.1 == k) = false := beq_eq_false_iff_ne.2 hp
        cases hc : pr.1 == k' <;>
          simp [insertReplace, countKey, hb, List.filter_cons, hc] at ih ⊢ <;>
          omega

lemma atMostOne_insertReplace {κ α : Type} [BEq κ] [LawfulBEq κ]
    {m : List (κ × α)} (hm : AtMostOne m) (k : κ) (v : α) :
    AtMostOne (insertReplace m k v) := by
  intro k'
  by_cases h : k' = k
  · subst h
    rw [countKey_insertReplace_self]
    have := hm k'
    omega
  · rw [countKey_insertReplace_ne _ _ _ _ h]
    exact hm k'

lemma lookupA_insertReplace_self {κ α : Type} [BEq κ] [LawfulBEq κ]
    (m : List (κ × α)) (k : κ) (v : α) :
    lookupA (insertReplace m k v) k = some v := by
  induction m with
  | nil => simp [insertReplace, lookupA]
  | cons pr rest ih =>
      by_cases h : pr.1 = k
      · simp [insertReplace, lookupA, h]
      · have hb : (pr.1 == k) = false := beq_eq_false_iff_ne.2 h
        simp [insertReplace, lookupA, hb, ih]

lemma lookupA_insertReplace_ne {κ α : Type} [BEq κ] [LawfulBEq κ]
    (m : List (κ × α)) (k k' : κ) (v : α) (h : k' ≠ k) :
    lookupA (insertReplace m k v) k' = lookupA m k' := by
  have hkk : (k == k') = false := beq_eq_false_iff_ne.2 (Ne.symm h)
  induction m with
  | nil => simp [insertReplace, lookupA, hkk]
  | cons pr rest ih =>
      by_cases hp : pr.1 = k
      · subst hp
        simp [insertReplace, lookupA, hkk]
      · have hb : (pr.1 == k) = false := beq_eq_false_iff_ne.2 hp
        cases hc : pr.1 == k' <;> simp [insertReplace, lookupA, hb, hc, ih]

lemma lookupA_insertReplace_ne_none {κ α : Type} [BEq κ] [LawfulBEq κ]
    {m : List (κ × α)} {k' : κ} (h : lookupA m k' ≠ none) (k : κ) (v : α) :
    lookupA (insertReplace m k v) k' ≠ none := by
  by_cases hk : k' = k
  · subst hk
    rw [lookupA_insertReplace_self]
    simp
  · rw [lookupA_insertReplace_ne _ _ _ _ hk]
    exact h

lemma mem_insertReplace {κ α : Type} [BEq κ] [LawfulBEq κ]
    {pr : κ × α} {m : List (κ × α)} {k : κ} {v : α}
    (h : pr ∈ insertReplace m k v) : pr ∈ m ∨ pr = (k, v) := by
  induction m with
  | nil =>
      simp [insertReplace] at h
      exact Or.inr h
  | cons q rest ih =>
      by_cases hq : q.1 = k
      · simp [insertReplace, hq] at h
        rcases h with h | h
        · exact Or.inr h
        · exact Or.inl (List.mem_cons_of_mem _ h)
      · have hb : (q.1 == k) = false := beq_eq_false_iff_ne.2 hq
        simp [insertReplace, hb] at h
        rcases h with h | h
        · exact Or.inl (by simp [h])
        · rcases ih h with h' | h'
          · exact Or.inl (List.mem_cons_of_mem _ h')
          · exact Or.inr h'

lemma lookupA_eq_some_mem {κ α : Type} [BEq κ] [LawfulBEq κ]
    {m : List (κ × α)} {k : κ} {v : α} (h : lookupA m k = some v) :
    (k, v) ∈ m := by
  induction m with
  | nil => simp [lookupA] at h
  | cons pr rest ih =>
      by_cases hp : pr.1 = k
      · simp [lookupA, hp] at h
        have : pr = (k, v) := Prod.ext hp h
        rw [← this]
        exact List.mem_cons_self _ _
      · have hb : (pr.1 == k) = false := beq_eq_false_iff_ne.2 hp
        simp [lookupA, hb] at h
        exact List.mem_cons_of_mem _ (ih h)

lemma one_le_countKey_of_lookupA {κ α : Type} [BEq κ] [LawfulBEq κ]
    {m : List (κ × α)} {k : κ} (h : lookupA m k ≠ none) :
    1 ≤ countKey m k := by
  induction m with
  | nil => simp [lookupA] at h
  | cons pr rest ih =>
      by_cases hp : pr.1 = k
      · simp [countKey, List.filter_cons, hp]
      · have hb : (pr.1 == k) = false := beq_eq_false_iff_ne.2 hp
        simp [lookupA, hb] at h
        simpa [countKey, List.filter_cons, hb] using ih h

lemma atMostOne_foldl {κ α β : Type} [BEq κ]
    (step : List (κ × α) → β → List (κ × α))
    (hstep : ∀ m b, AtMostOne m → AtMostOne (step m b)) :
    ∀ (l : List β) (m : List (κ × α)), AtMostOne m →
      AtMostOne (l.foldl step m)
  | [], _, hm => hm
  | b :: t, m, hm => atMostOne_foldl step hstep t (step m b) (hstep m b hm)

/-! ## Fragment lemmas for the usage matcher -/

lemma findallRunsAux_sound (p : Char → Bool) (l : List Char) :
    ∀ cur : List Char, (∀ c ∈ cur, p c = false) →
      ∀ f ∈ findallRunsAux p cur l, f ≠ [] ∧ ∀ c ∈ f, p c = false := by
  induction l with
  | nil =>
      intro cur hcur f hf
      by_cases hc : cur.isEmpty
      · simp [findallRunsAux, hc] at hf
      · simp [findallRunsAux, hc] at hf
        subst hf
        refine ⟨?_, ?_⟩
        · simp [List.isEmpty_iff] at hc
          simpa using hc
        · intro c hcmem
          exact hcur c (List.mem_reverse.1 hcmem)
  | cons ch rest ih =>
      intro cur hcur f hf
      by_cases hp : p ch = true
      · by_cases hc : cur.isEmpty
        · simp [findallRunsAux, hp, hc] at hf
          exact ih [] (by intro c hc'; cases hc') f hf
        · simp [findallRunsAux, hp, hc] at hf
          rcases hf with hf | hf
          · subst hf
            refine ⟨?_, ?_⟩
            · simp [List.isEmpty_iff] at hc
              simpa using hc
            · intro c hcmem
              exact hcur c (List.mem_reverse.1 hcmem)
          · exact ih [] (by intro c hc'; cases hc') f hf
      · have hp' : p ch = false := by
          cases hpc : p ch
          · rfl
          · exact absurd hpc hp
        simp [findallRunsAux, hp'] at hf
        refine ih (ch :: cur) ?_ f hf
        intro c hcmem
        rcases List.mem_cons.1 hcmem with rfl | hcc
        · exact hp'
        · exact hcur c hcc

/-! ## C2: the digit-aware tokenized matching rule -/

/-- C2 (counterexample): the claim says the name is split on runs of digits
and on the separators `_` AND `-`.  On the digit-bearing name `icon-2` and
the content `"icon 2"` the spec's rule yields fragments `["icon"]` and
declares the resource used, but the code's regex `[^_?-?\d]` does not treat
the hyphen as a separator: its only fragment is `"icon-"`, which does not
occur, so the code declares the resource unused. -/
theorem c2_counterexample :
    spec_is_used "icon-2" "icon 2" = true ∧
    code_is_used "icon-2" "icon 2" = false := by
  exact ⟨by decide, by decide⟩

/-- C2 (amended): for every resource name containing a digit, the matcher
splits the name into maximal runs of characters other than `_`, `?` and
digits (the hyphen is NOT a separator), and declares the resource used
exactly when the exact substring match succeeds or every fragment occurs in
the content, falling back to the exact substring match when no fragment is
produced; every produced fragment is non-empty and free of separator
characters. -/
theorem c2_amended (resource content : String)
    (h : contains_digit resource = true) :
    (code_is_used resource content = true ↔
      (pyIn resource content = true ∨
        (findallFragments resource ≠ [] ∧
          ∀ f ∈ findallFragments resource,
            pyIn (String.mk f) content = true))) ∧
    (∀ f ∈ findallFragments resource,
      f ≠ [] ∧ ∀ c ∈ f, isSepChar c = false) := by
  constructor
  · by_cases he : (findallFragments resource).isEmpty
    · have hnil : findallFragments resource = [] := List.isEmpty_iff.1 he
      simp [code_is_used, is_content_matching_resource, h, hnil]
    · have hne : findallFragments resource ≠ [] := by
        simpa [List.isEmpty_iff] using he
      simp [code_is_used, is_content_matching_resource, h, he, hne,
        List.all_eq_true, Bool.or_eq_true]
  · intro f hf
    exact findallRunsAux_sound isSepChar resource.data []
      (by intro c hc; cases hc) f hf

/-- C2 (witness): the spec's own example `is_used("icon_2", "we load icon
then append 2 separately")`, instantiating the amended characterization. -/
theorem c2_amended_witness :
    (code_is_used "icon_2" "we load icon then append 2 separately" = true ↔
      (pyIn "icon_2" "we load icon then append 2 separately" = true ∨
        (findallFragments "icon_2" ≠ [] ∧
          ∀ f ∈ findallFragments "icon_2",
            pyIn (String.mk f) "we load icon then append 2 separately" = true))) ∧
    (∀ f ∈ findallFragments "icon_2",
      f ≠ [] ∧ ∀ c ∈ f, isSepChar c = false) :=
  c2_amended "icon_2" "we load icon then append 2 separately" (by decide)

/-! ## C3: unreadable corpus files -/

/-- C3 (counterexample): with a corpus whose first file raises on read and
whose second file contains the resource name, the claim says the scan skips
the bad file, finds the match and neither marks the resource unused nor
crashes; the code propagates the exception instead — the usage check (and
with it `fetch_unused_resources`, which re-raises it from
`future.result()`) aborts without producing any verdict. -/
theorem c3_counterexample :
    check_resource_usage_fallible "icon"
        [Except.error "PermissionError", Except.ok "icon here"] =
      Except.error "PermissionError" ∧
    (¬ ∃ b : Bool,
      check_resource_usage_fallible "icon"
          [Except.error "PermissionError", Except.ok "icon here"] =
        Except.ok b) ∧
    fetch_unused_resources_fallible
        [Except.error "PermissionError", Except.ok "icon here"] invW =
      Except.error "PermissionError" := by
  refine ⟨rfl, ?_, rfl⟩
  rintro ⟨b, hb⟩
  rw [show check_resource_usage_fallible "icon"
      [Except.error "PermissionError", Except.ok "icon here"] =
      Except.error "PermissionError" from rfl] at hb
  exact Except.noConfusion hb

/-- C3 (amended): a read error on any corpus file propagates out of the
usage check as an exception: however many non-matching readable files
precede it, the check stops at the first unreadable file, the remaining
files are never scanned and no verdict is produced. -/
theorem c3_amended (resource e : String)
    (pre rest : List (Except String String))
    (h : pre.all (fun readResult =>
        match readResult with
        | Except.ok content => !(resourceMatchesContent resource content)
        | Except.error _ => false) = true) :
    check_resource_usage_fallible resource
      (pre ++ Except.error e :: rest) = Except.error e := by
  induction pre with
  | nil => rfl
  | cons f fs ih =>
      rw [List.all_cons, Bool.and_eq_true] at h
      match f, h with
      | Except.ok content, ⟨h1, h2⟩ =>
          have hm : resourceMatchesContent resource content = false := by
            simpa using h1
          simpa [check_resource_usage_fallible, hm] using ih h2

/-- C3 (witness): one readable non-matching file precedes the unreadable
one. -/
theorem c3_amended_witness :
    check_resource_usage_fallible "icon"
      ([Except.ok "nothing"] ++ Except.error "PermissionError" :: []) =
      Except.error "PermissionError" :=
  c3_amended "icon" "PermissionError" [Except.ok "nothing"] [] (by decide)

/-! ## Lemmas on the nested `others` map -/

lemma atMostOne_singleton {κ α : Type} [BEq κ] (k0 : κ) (v : α) :
    AtMostOne [(k0, v)] := by
  intro k
  cases hc : k0 == k <;> simp [countKey, List.filter_cons, hc]

lemma insertNested_bound (acc : List (String × List (String × Path)))
    (fmt name : String) (v : Path) :
    ∃ inner, lookupA (insertNested acc fmt name v) fmt = some inner ∧
      lookupA inner name ≠ none := by
  cases hcase : lookupA acc fmt with
  | none =>
      refine ⟨[(name, v)], ?_, ?_⟩
      · simp [insertNested, hcase, lookupA_insertReplace_self]
      · simp [lookupA]
  | some inner =>
      refine ⟨insertReplace inner name v, ?_, ?_⟩
      · simp [insertNested, hcase, lookupA_insertReplace_self]
      · rw [lookupA_insertReplace_self]
        simp

lemma insertNested_bound_mono {acc : List (String × List (String × Path))}
    {fmt name : String}
    (h : ∃ inner, lookupA acc fmt = some inner ∧ lookupA inner name ≠ none)
    (fmt' name' : String) (v : Path) :
    ∃ inner, lookupA (insertNested acc fmt' name' v) fmt = some inner ∧
      lookupA inner name ≠ none := by
  obtain ⟨inner, hl, hn⟩ := h
  by_cases hf : fmt = fmt'
  · subst hf
    refine ⟨insertReplace inner name' v, ?_, ?_⟩
    · simp [insertNested, hl, lookupA_insertReplace_self]
    · exact lookupA_insertReplace_ne_none hn name' v
  · cases hcase : lookupA acc fmt' with
    | none =>
        refine ⟨inner, ?_, hn⟩
        simp only [insertNested, hcase]
        rw [lookupA_insertReplace_ne _ _ _ _ hf]
        exact hl
    | some inner0 =>
        refine ⟨inner, ?_, hn⟩
        simp only [insertNested, hcase]
        rw [lookupA_insertReplace_ne _ _ _ _ hf]
        exact hl

lemma othersStep_bound_mono {acc : List (String × List (String × Path))}
    {fmt name : String}
    (h : ∃ inner, lookupA acc fmt = some inner ∧ lookupA inner name ≠ none)
    (f : Path) :
    ∃ inner, lookupA (othersStep acc f) fmt = some inner ∧
      lookupA inner name ≠ none := by
  unfold othersStep
  exact insertNested_bound_mono h _ _ _

lemma bound_foldl (files : List Path) :
    ∀ (acc : List (String × List (String × Path))) (fmt name : String),
      (∃ inner, lookupA acc fmt = some inner ∧ lookupA inner name ≠ none) →
      ∃ inner, lookupA (files.foldl othersStep acc) fmt = some inner ∧
        lookupA inner name ≠ none := by
  induction files with
  | nil => intro acc fmt name h; exact h
  | cons g t ih =>
      intro acc fmt name h
      exact ih _ _ _ (othersStep_bound_mono h g)

lemma bound_of_mem (files : List Path) :
    ∀ (acc : List (String × List (String × Path))) (f : Path), f ∈ files →
      ∃ inner,
        lookupA (files.foldl othersStep acc)
          (normalize_resource_name (f.getLastD "")).2 = some inner ∧
        lookupA inner (normalize_resource_name (f.getLastD "")).1 ≠ none := by
  induction files with
  | nil => intro acc f hf; cases hf
  | cons g t ih =>
      intro acc f hf
      rcases List.mem_cons.1 hf with rfl | hf'
      · exact bound_foldl t _ _ _
          (by unfold othersStep; exact insertNested_bound _ _ _ _)
      · exact ih _ f hf'

lemma nestedOK_insertNested {acc : List (String × List (String × Path))}
    (hOK : NestedOK acc) (fmt name : String) (v : Path) :
    NestedOK (insertNested acc fmt name v) := by
  obtain ⟨h1, h2⟩ := hOK
  cases hcase : lookupA acc fmt with
  | none =>
      constructor
      · simpa [insertNested, hcase] using
          atMostOne_insertReplace h1 fmt [(name, v)]
      · intro pr hpr
        simp only [insertNested, hcase] at hpr
        rcases mem_insertReplace hpr with h | h
        · exact h2 pr h
        · subst h
          exact atMostOne_singleton name v
  | some inner =>
      have hinner : AtMostOne inner := h2 (fmt, inner) (lookupA_eq_some_mem hcase)
      constructor
      · simpa [insertNested, hcase] using
          atMostOne_insertReplace h1 fmt (insertReplace inner name v)
      · intro pr hpr
        simp only [insertNested, hcase] at hpr
        rcases mem_insertReplace hpr with h | h
        · exact h2 pr h
        · subst h
          exact atMostOne_insertReplace hinner name v

lemma nestedOK_foldl (files : List Path) :
    ∀ acc, NestedOK acc → NestedOK (files.foldl othersStep acc) := by
  induction files with
  | nil => intro acc h; exact h
  | cons g t ih =>
      intro acc h
      exact ih _ (by unfold othersStep; exact nestedOK_insertNested h _ _ _)

lemma mem_othersPaths {q : Path} :
    ∀ {m : List (String × List (String × Path))},
      q ∈ othersPaths m ↔ ∃ pr ∈ m, ∃ en ∈ pr.2, en.2 = q := by
  intro m
  induction m with
  | nil => simp [othersPaths]
  | cons pr rest ih =>
      simp only [othersPaths, List.mem_append, List.mem_map, ih, List.mem_cons]
      constructor
      · rintro (⟨en, hen, rfl⟩ | ⟨pr', hpr', en, hen, hq⟩)
        · exact ⟨pr, Or.inl rfl, en, hen, rfl⟩
        · exact ⟨pr', Or.inr hpr', en, hen, hq⟩
      · rintro ⟨pr', hpr', en, hen, hq⟩
        rcases hpr' with rfl | hpr'
        · exact Or.inl ⟨en, hen, hq⟩
        · exact Or.inr ⟨pr', hpr', en, hen, hq⟩

lemma mem_othersPaths_insertNested {q : Path}
    {acc : List (String × List (String × Path))} {fmt name : String} {v : Path}
    (h : q ∈ othersPaths (insertNested acc fmt name v)) :
    q ∈ othersPaths acc ∨ q = v := by
  rcases mem_othersPaths.1 h with ⟨pr, hpr, en, hen, hq⟩
  cases hcase : lookupA acc fmt with
  | none =>
      simp only [insertNested, hcase] at hpr
      rcases mem_insertReplace hpr with h' | h'
      · exact Or.inl (mem_othersPaths.2 ⟨pr, h', en, hen, hq⟩)
      · subst h'
        simp only [List.mem_singleton] at hen
        subst hen
        exact Or.inr hq.symm
  | some inner =>
      simp only [insertNested, hcase] at hpr
      rcases mem_insertReplace hpr with h' | h'
      · exact Or.inl (mem_othersPaths.2 ⟨pr, h', en, hen, hq⟩)
      · subst h'
        rcases mem_insertReplace hen with h'' | h''
        · exact Or.inl (mem_othersPaths.2
            ⟨(fmt, inner), lookupA_eq_some_mem hcase, en, h'', hq⟩)
        · subst h''
          exact Or.inr hq.symm

lemma mem_othersPaths_foldl (files : List Path) :
    ∀ (acc : List (String × List (String × Path))) (q : Path),
      q ∈ othersPaths (files.foldl othersStep acc) →
      q ∈ othersPaths acc ∨ q ∈ files := by
  induction files with
  | nil => intro acc q h; exact Or.inl h
  | cons g t ih =>
      intro acc q h
      rcases ih _ q h with h' | h'
      · unfold othersStep at h'
        rcases mem_othersPaths_insertNested h' with h'' | h''
        · exact Or.inl h''
        · exact Or.inr (h'' ▸ List.mem_cons_self _ _)
      · exact Or.inr (List.mem_cons_of_mem _ h')

/-! ## Lemmas on the exclusion test (`os.path.commonpath`) -/

lemma prefixArg_commonPrefixSegs_eq_self {d : Path} :
    ∀ {g : Path}, d <+: g → commonPrefixSegs g d = d := by
  induction d with
  | nil => intro g _; cases g <;> rfl
  | cons b bs ih =>
      intro g h
      obtain ⟨t, ht⟩ := h
      subst ht
      have hstep : commonPrefixSegs (b :: (bs ++ t)) (b :: bs)
          = b :: commonPrefixSegs (bs ++ t) bs := by
        simp [commonPrefixSegs]
      rw [List.cons_append, hstep, ih ⟨t, rfl⟩]

lemma prefix_of_commonPrefixSegs_eq_self :
    ∀ {g d : Path}, commonPrefixSegs g d = d → d <+: g := by
  intro g
  induction g with
  | nil =>
      intro d h
      cases d with
      | nil => exact List.nil_prefix
      | cons b bs => simp [commonPrefixSegs] at h
  | cons a as ih =>
      intro d h
      cases d with
      | nil => exact List.nil_prefix
      | cons b bs =>
          by_cases hab : a = b
          · subst hab
            rw [show commonPrefixSegs (a :: as) (a :: bs)
                = a :: commonPrefixSegs as bs from by simp [commonPrefixSegs]] at h
            injection h with _ h2
            exact List.cons_prefix_cons.2 ⟨rfl, ih h2⟩
          · simp [commonPrefixSegs, hab] at h

lemma is_under_eq (g d : Path) : is_under g d = d.isPrefixOf g := by
  unfold is_under
  by_cases h : commonPrefixSegs g d = d
  · rw [decide_eq_true h]
    exact (List.isPrefixOf_iff_prefix.2 (prefix_of_commonPrefixSegs_eq_self h)).symm
  · rw [decide_eq_false h]
    cases hb : d.isPrefixOf g with
    | false => rfl
    | true =>
        exact absurd
          (prefixArg_commonPrefixSegs_eq_self (List.isPrefixOf_iff_prefix.1 hb)) h

/-! ## C8: exclusion wins and respects path-segment boundaries -/

/-- C8: the code's "under an excluded directory" test
(`os.path.commonpath([file, excl]) == excl`) agrees with
path-segment-boundary prefix comparison, and any file lying (in that sense)
under a resolved exclude folder never appears among the paths stored in the
`others` inventory built by `apply_addtional_resouces` — exclusion wins. -/
theorem c8_exclusion (files excludePaths : List Path) (f e : Path)
    (he : e ∈ excludePaths) (hu : e.isPrefixOf f = true) :
    is_under f e = e.isPrefixOf f ∧
    f ∉ othersPaths (apply_addtional_resouces files excludePaths) := by
  refine ⟨is_under_eq f e, ?_⟩
  intro hmem
  unfold apply_addtional_resouces at hmem
  rcases mem_othersPaths_foldl _ [] f hmem with h0 | hkept
  · simp [othersPaths] at h0
  · have hpred := (List.mem_filter.1 (List.mem_dedup.1 hkept)).2
    rw [Bool.not_eq_true'] at hpred
    have hany : excludePaths.any (fun e' => is_under f e') = true :=
      List.any_eq_true.2 ⟨e, he, by rw [is_under_eq]; exact hu⟩
    rw [hany] at hpred
    simp at hpred

/-- C8 (witness): a file directly below an excluded folder is absent from
the built inventory. -/
theorem c8_exclusion_witness :
    is_under ["r", "sub", "a.png"] ["r", "sub"] =
      (["r", "sub"] : Path).isPrefixOf ["r", "sub", "a.png"] ∧
    (["r", "sub", "a.png"] : Path) ∉ othersPaths
      (apply_addtional_resouces [["r", "sub", "a.png"]] [["r", "sub"]]) :=
  c8_exclusion [["r", "sub", "a.png"]] [["r", "sub"]]
    ["r", "sub", "a.png"] ["r", "sub"] (by decide) (by decide)

/-! ## C9: density-suffix normalization -/

/-- C9: `logo@2x.png` and `logo@3x.png` both normalize to the resource
name `logo` with format `png`, and after processing a file set containing
both, the `others` map binds `others["png"]["logo"]` exactly once. -/
theorem c9_suffix_normalization (files : List Path) (p1 p2 : Path)
    (h1 : p1 ∈ files) (h2 : p2 ∈ files)
    (b1 : p1.getLastD "" = "logo@2x.png")
    (b2 : p2.getLastD "" = "logo@3x.png") :
    normalize_resource_name "logo@2x.png" = ("logo", "png") ∧
    normalize_resource_name "logo@3x.png" = ("logo", "png") ∧
    ∃ inner, lookupA (apply_addtional_resouces files []) "png" = some inner ∧
      countKey inner "logo" = 1 := by
  refine ⟨by decide, by decide, ?_⟩
  have hp1 : p1 ∈ (files.filter
      (fun f => !(([] : List Path).any (fun e => is_under f e)))).dedup :=
    List.mem_dedup.2 (List.mem_filter.2 ⟨h1, rfl⟩)
  have hb := bound_of_mem _ [] p1 hp1
  rw [b1, show normalize_resource_name "logo@2x.png" = ("logo", "png")
    from by decide] at hb
  obtain ⟨inner, hl, hn⟩ := hb
  have hOK := nestedOK_foldl ((files.filter
      (fun f => !(([] : List Path).any (fun e => is_under f e)))).dedup) []
    ⟨atMostOne_nil, by intro pr hpr; cases hpr⟩
  exact ⟨inner, hl, Nat.le_antisymm
    ((hOK.2 _ (lookupA_eq_some_mem hl)) "logo")
    (one_le_countKey_of_lookupA hn)⟩

/-- C9 (witness): the two-file set itself. -/
theorem c9_suffix_normalization_witness :
    normalize_resource_name "logo@2x.png" = ("logo", "png") ∧
    normalize_resource_name "logo@3x.png" = ("logo", "png") ∧
    ∃ inner, lookupA (apply_addtional_resouces
        [["r", "logo@2x.png"], ["r", "logo@3x.png"]] []) "png" = some inner ∧
      countKey inner "logo" = 1 :=
  c9_suffix_normalization [["r", "logo@2x.png"], ["r", "logo@3x.png"]]
    ["r", "logo@2x.png"] ["r", "logo@3x.png"]
    (by decide) (by decide) (by decide) (by decide)

/-! ## C7: resource names of discovered bundle files -/

lemma lookupA_imageset_foldl_ne_none (files : List Path) :
    ∀ (acc : List (String × Path)) (k : String), lookupA acc k ≠ none →
      lookupA (files.foldl
        (fun acc f => insertReplace acc (extract_imageset_name f) f) acc)
        k ≠ none := by
  induction files with
  | nil => intro acc k h; exact h
  | cons g t ih =>
      intro acc k h
      exact ih _ k (lookupA_insertReplace_ne_none h _ _)

lemma lookupA_apply_imageset_of_mem (files : List Path) :
    ∀ (acc : List (String × Path)) (p : Path), p ∈ files →
      lookupA (files.foldl
        (fun acc f => insertReplace acc (extract_imageset_name f) f) acc)
        (extract_imageset_name p) ≠ none := by
  induction files with
  | nil => intro acc p hp; cases hp
  | cons g t ih =>
      intro acc p hp
      rcases List.mem_cons.1 hp with rfl | hp'
      · exact lookupA_imageset_foldl_ne_none t _ _
          (by rw [lookupA_insertReplace_self]; simp)
      · exact ih _ p hp'

/-- C7 (counterexample): the file `/a/logo.imageset/sub/x.png`, nested in a
subdirectory of the bundle, is matched by the discovery glob
`**/*.imageset/**/*.*`; the claim (and the spec's rule, embodied by
`enclosing_bundle_name`) names it `logo`, but `extract_imageset_name` takes
the immediate parent directory's name and yields `sub`. -/
theorem c7_counterexample :
    imagesetGlobMatches ["a", "logo.imageset", "sub", "x.png"] = true ∧
    extract_imageset_name ["a", "logo.imageset", "sub", "x.png"] = "sub" ∧
    enclosing_bundle_name ["a", "logo.imageset", "sub", "x.png"] =
      some "logo" ∧
    ("sub" : String) ≠ "logo" :=
  ⟨by decide, by decide, by decide, by decide⟩

/-- C7 (amended): the resource name entered into the imagesets map is the
file's IMMEDIATE parent directory's name with the `.imageset` suffix
stripped when present — equal to the enclosing bundle's name only for files
lying directly in the bundle directory — and every discovered file does get
an entry under that name. -/
theorem c7_amended (files : List Path) (p : Path) (hp : p ∈ files)
    (h : pyEndsWith ((p.dropLast).getLastD "") ".imageset" = true) :
    extract_imageset_name p = pyDropRight ((p.dropLast).getLastD "") 9 ∧
    lookupA (apply_imageset files) (extract_imageset_name p) ≠ none := by
  constructor
  · simp only [extract_imageset_name]
    rw [if_pos h]
  · unfold apply_imageset
    exact lookupA_apply_imageset_of_mem files [] p hp

/-- C7 (witness): a density variant lying directly in its bundle. -/
theorem c7_amended_witness :
    extract_imageset_name ["a", "logo.imageset", "logo@2x.png"] =
      pyDropRight
        (((["a", "logo.imageset", "logo@2x.png"] : Path).dropLast).getLastD "")
        9 ∧
    lookupA (apply_imageset [["a", "logo.imageset", "logo@2x.png"]])
      (extract_imageset_name ["a", "logo.imageset", "logo@2x.png"]) ≠ none :=
  c7_amended [["a", "logo.imageset", "logo@2x.png"]]
    ["a", "logo.imageset", "logo@2x.png"] (by decide) (by decide)

/-! ## C4: per-name path resolution of the cleanup executor -/

lemma atMostOne_imagesetStep (res : Inventory) :
    ∀ (m : List (String × Path)) (k : String), AtMostOne m →
      AtMostOne (imagesetStep res m k) := by
  intro m k hm
  cases hcase : lookupA res.imagesets k with
  | some v => simpa [imagesetStep, hcase] using atMostOne_insertReplace hm k v
  | none => simpa [imagesetStep, hcase] using hm

lemma atMostOne_othersLookupStep (k : String) :
    ∀ (m : List (String × Path)) (fd : String × List (String × Path)),
      AtMostOne m → AtMostOne (othersLookupStep k m fd) := by
  intro m fd hm
  cases hcase : lookupA fd.2 k with
  | some v => simpa [othersLookupStep, hcase] using atMostOne_insertReplace hm k v
  | none => simpa [othersLookupStep, hcase] using hm

lemma atMostOne_unusedStep (res : Inventory) :
    ∀ (m : List (String × Path)) (k : String), AtMostOne m →
      AtMostOne (unusedStep res m k) := by
  intro m k hm
  unfold unusedStep
  exact atMostOne_foldl _ (atMostOne_othersLookupStep k) res.others m hm

/-- C4 (counterexample): in the section-8 scenario the unused name `logo`
resolves both in `imagesets` and in `others["json"]`, yet the resolution
dict of `clear_unused_resources` retains a single path — the
`others["json"]` one, the `update` call having overwritten the imageset
path — so only one path is handed to deletion and the reported count is 1,
not at least 2. -/
theorem c4_counterexample :
    (unusedDict ["logo"] specInventory).map Prod.snd =
      [["a", "logo.imageset", "Contents.json"]] ∧
    (unusedDict ["logo"] specInventory).length = 1 ∧
    ¬ 2 ≤ (unusedDict ["logo"] specInventory).length :=
  ⟨rfl, rfl, by decide⟩

/-- C4 (amended): the resolution dict of the cleanup executor binds every
unused name to at most ONE path — when a name resolves in several
categories the later `others` binding overwrites the imagesets one — so in
the section-8 scenario exactly the `others["json"]` path is deleted and the
reported count is 1. -/
theorem c4_amended (unused : List String) (res : Inventory) (k : String) :
    countKey (unusedDict unused res) k ≤ 1 ∧
    unusedDict ["logo"] specInventory =
      [("logo", ["a", "logo.imageset", "Contents.json"])] := by
  refine ⟨?_, rfl⟩
  unfold unusedDict
  exact atMostOne_foldl _ (atMostOne_unusedStep res) unused _
    (atMostOne_foldl _ (atMostOne_imagesetStep res) unused [] atMostOne_nil) k

/-! ## C1: the used/unused partition -/

/-- C1: every resource name assembled from the imagesets keys and the
per-format keys of `others` lands in exactly one of the used and the unused
collections of `fetch_unused_resources` — never both and never neither. -/
theorem c1_partition (contents : List String) (res : Inventory) (n : String)
    (h : n ∈ allResources res) :
    Xor' (n ∈ used_resources contents res)
      (n ∈ fetch_unused_resources contents res) := by
  by_cases hc : ((n != "") && check_resource_usage n contents) = true
  · have hu : n ∈ used_resources contents res :=
      List.mem_dedup.2 (List.mem_filter.2 ⟨h, hc⟩)
    refine Or.inl ⟨hu, fun hun => ?_⟩
    have h2 := (List.mem_filter.1 hun).2
    simp only [decide_eq_true_eq] at h2
    exact h2 hu
  · have hu : n ∉ used_resources contents res := fun hm =>
      hc (List.mem_filter.1 (List.mem_dedup.1 hm)).2
    exact Or.inr ⟨List.mem_filter.2 ⟨List.mem_dedup.2 h, by
      simpa only [decide_eq_true_eq] using hu⟩, hu⟩

/-- C1 (witness): a one-name inventory whose name occurs in the corpus. -/
theorem c1_partition_witness :
    Xor' ("icon" ∈ used_resources ["icon used"] invW)
      ("icon" ∈ fetch_unused_resources ["icon used"] invW) :=
  c1_partition ["icon used"] invW "icon" (by decide)

/-! ## C10: absent additional resource folders -/

/-- C10: with the additional-resource-folder configuration absent (`None`,
and likewise for an empty list) `find_matching_folders` returns `None`, and
`apply_resources` raises `TypeError` while iterating it instead of
returning any inventory, so resource analysis is impossible without at
least one additional resource folder. -/
theorem c10_no_additional_folders (walk : List WalkEntry)
    (imageset_files : List Path) (excludeFolders : Option (List String))
    (filesUnder : Path → List Path) :
    find_matching_folders walk none = none ∧
    find_matching_folders walk (some []) = none ∧
    ∀ inv : Inventory,
      apply_resources walk imageset_files none excludeFolders filesUnder ≠
        Except.ok inv := by
  refine ⟨rfl, rfl, ?_⟩
  intro inv hinv
  simp [apply_resources, find_matching_folders] at hinv

/-! ## C5: reclaimed size of a bundle deletion -/

/-- C5 (counterexample): the bundle holds files of sizes 100 and 200;
deleting the resource resolved to the 100-byte member removes the whole
bundle directory but records 100 reclaimed bytes — the size of the single
resolved file (`os.path.getsize(file_path)`) — not the 300 bytes the claim
demands. -/
theorem c5_counterexample :
    delete_imageset_or_file fsBundle ["a", "logo.imageset", "x.png"] =
      Except.ok ([], 100) ∧
    bundle_total_size fsBundle ["a", "logo.imageset"] = 300 ∧
    (100 : Nat) ≠ 300 :=
  ⟨rfl, rfl, by decide⟩

/-- C5 (amended): when the parent directory's name ends in `.imageset` and
the directory is non-empty, the deletion removes every file under the
parent directory (and nothing else), but the size it records is that of the
single resolved file alone (0 when it is missing), not the sum of the
directory's contents. -/
theorem c5_amended (fs : FS) (path : Path)
    (h1 : pyEndsWith ((path.dropLast).getLastD "") ".imageset" = true)
    (h2 : fs.any (fun q => (path.dropLast).isPrefixOf q.1) = true) :
    ∃ fs', delete_imageset_or_file fs path =
        Except.ok (fs', (lookupA fs path).getD 0) ∧
      ∀ q, q ∈ fs' ↔ (q ∈ fs ∧ (path.dropLast).isPrefixOf q.1 = false) := by
  refine ⟨fs.filter (fun q => !((path.dropLast).isPrefixOf q.1)), ?_, ?_⟩
  · simp only [delete_imageset_or_file]
    rw [if_pos h1, if_pos h2]
  · intro q
    simp [List.mem_filter]

/-- C5 (witness): the two-member bundle. -/
theorem c5_amended_witness :
    ∃ fs', delete_imageset_or_file fsBundle ["a", "logo.imageset", "x.png"] =
        Except.ok (fs',
          (lookupA fsBundle ["a", "logo.imageset", "x.png"]).getD 0) ∧
      ∀ q, q ∈ fs' ↔ (q ∈ fsBundle ∧
        ((["a", "logo.imageset", "x.png"] : Path).dropLast).isPrefixOf q.1 =
          false) :=
  c5_amended fsBundle ["a", "logo.imageset", "x.png"] (by decide) (by decide)

/-! ## C6: cleanup of an already-missing path -/

/-- C6: the code means to tolerate a missing path — `os.path.getsize` is
wrapped in `except FileNotFoundError`, logging and counting 0 bytes — but
the subsequent removal (`os.remove` / `shutil.rmtree`) is unguarded and
raises `FileNotFoundError`, aborting the whole cleanup: with the missing
`ghost` path first, the existing `real` entry is never deleted. -/
theorem c6_code_raises :
    delete_imageset_or_file fsC6 ["a", "gone.png"] =
      Except.error "FileNotFoundError" ∧
    clear_unused_resources ["ghost", "real"] resC6 fsC6 =
      Except.error "FileNotFoundError" :=
  ⟨rfl, rfl⟩

end StaticAnalysis
